import Mathlib

/-!
Verification of the core logic of `streamlit_agenda.py`: the ordering policy
(`get_tasks`, `swap_sort_index`), the reminder engine (`check_due_tasks` with
`parse_iso_or_flex` and `notify_os`), and the task CRUD frame (`update_task`).

Modelling conventions (shallow embedding):

* The SQLite `tasks` table is a `List Task`, one element per row, kept in rowid
  (insertion) order.  The `id` column is a primary key, so states of interest
  satisfy `(s.map Task.id).Nodup`.
* Timestamps (`datetime`) are seconds counted from an epoch, as a `Nat`.
  A calendar date is the day number `t / 86400`; the time-of-day is
  `t % 86400`.  `datetime.combine(date.today(), due.time())` becomes
  `(now / 86400) * 86400 + due % 86400`.  `timedelta(minutes=w)` is `w * 60`.
  `datetime.now()` and `date.today()` are read from the same clock instant
  `now` (the source captures `now` once at the top of `check_due_tasks`).
* The persisted `due_iso` TEXT column is abstracted as a `DueIso` pair: the
  timestamp the text denotes (`value`, which for `datetime.isoformat()` output
  also orders exactly like the text orders lexicographically, so SQL
  `ORDER BY due_iso ASC` compares `value`), and whether `parse_iso_or_flex`
  succeeds on the text (`parses`; `false` abstracts a string on which every
  format attempt and the final `fromisoformat` fallback fail).
* `last_notified_date` is `Option Nat` (a day number, or NULL).  The source
  only ever writes `date.today().isoformat()`, a non-empty string, so Python
  falsiness of the column coincides with `= none`.
* SQL `ORDER BY k1, k2, k3` is modelled as a stable merge sort by the
  lexicographic key, the deterministic refinement of the query.
* `notify_os` returns `True` exactly when the optional `plyer` backend is
  present and its `notify` call does not raise; all exceptions are swallowed
  and the UI fallback returns `False`.  Both outcomes are modelled by the
  returned `Bool`; delivery has no access to the task store.
-/

namespace Agenda

/-- The persisted `due_iso` TEXT column, abstracted: the timestamp the text
denotes together with whether `parse_iso_or_flex` succeeds on it. -/
structure DueIso where
  value : Nat
  parses : Bool
deriving DecidableEq, Repr

/-- One row of the `tasks` table. -/
structure Task where
  id : Nat
  title : String
  description : Option String
  due_iso : DueIso
  recurrence : String
  folder_path : Option String
  priority : Int
  sort_index : Int
  last_notified_date : Option Nat
  completed : Bool
deriving DecidableEq, Repr

/-- The tuple `(task_id, title, description, due_dt, folder_path, priority)`
appended to `upcoming` by `check_due_tasks`. -/
structure NotificationEvent where
  id : Nat
  title : String
  description : Option String
  due_dt : Nat
  folder_path : Option String
  priority : Int
deriving DecidableEq, Repr

/-- `parse_iso_or_flex`: tries five `strptime` formats and then
`datetime.fromisoformat`; returns `None` when every attempt fails.  On the
abstracted text this is: the denoted timestamp if the text parses. -/
def parse_iso_or_flex (s : DueIso) : Option Nat :=
  if s.parses then some s.value else none

/-- Comparison behind `ORDER BY sort_index ASC, priority DESC, due_iso ASC`. -/
def manualLE (a b : Task) : Bool :=
  decide (a.sort_index < b.sort_index ∨
    (a.sort_index = b.sort_index ∧
      (b.priority < a.priority ∨
        (a.priority = b.priority ∧ a.due_iso.value ≤ b.due_iso.value))))

/-- Comparison behind `ORDER BY priority DESC, due_iso ASC`. -/
def priorityLE (a b : Task) : Bool :=
  decide (b.priority < a.priority ∨
    (a.priority = b.priority ∧ a.due_iso.value ≤ b.due_iso.value))

/-- `get_tasks(order_by_custom)`: SELECT all rows, ordered by
`sort_index ASC, priority DESC, due_iso ASC` when `order_by_custom` and by
`priority DESC, due_iso ASC` otherwise (stable sort over rowid order). -/
def get_tasks (order_by_custom : Bool) (s : List Task) : List Task :=
  if order_by_custom then s.mergeSort manualLE else s.mergeSort priorityLE

/-- `UPDATE tasks SET title=?, description=?, due_iso=?, recurrence=?,
folder_path=?, priority=? WHERE id=?` — the body of `update_task`.  The new
`due_iso` is `due_dt.isoformat()`, which always parses. -/
def update_task (task_id : Nat) (title : String) (description : Option String)
    (due_dt : Nat) (recurrence : String) (folder_path : Option String)
    (priority : Int) (s : List Task) : List Task :=
  s.map fun t =>
    if t.id = task_id then
      { t with title := title, description := description,
               due_iso := ⟨due_dt, true⟩, recurrence := recurrence,
               folder_path := folder_path, priority := priority }
    else t

/-- `UPDATE tasks SET last_notified_date=? WHERE id=?` — the body of
`set_task_notified_date`. -/
def set_task_notified_date (task_id : Nat) (d : Nat) (s : List Task) :
    List Task :=
  s.map fun t =>
    if t.id = task_id then { t with last_notified_date := some d } else t

/-- `UPDATE tasks SET sort_index=? WHERE id=?` — one update inside
`swap_sort_index`. -/
def set_sort_index (task_id : Nat) (v : Int) (s : List Task) : List Task :=
  s.map fun t =>
    if t.id = task_id then { t with sort_index := v } else t

/-- `swap_sort_index(task_id, other_id)`: SELECT the rows whose id is among
the two arguments; if that does not yield exactly two rows, return without
touching the store; otherwise write each row's `sort_index` into the other
(using the values read before either update). -/
def swap_sort_index (task_id other_id : Nat) (s : List Task) : List Task :=
  match s.filter (fun t => t.id == task_id || t.id == other_id) with
  | [a, b] => set_sort_index b.id a.sort_index (set_sort_index a.id b.sort_index s)
  | _ => s

/-- `notify_os`: when `plyer` is importable (`hasPlyer`) and
`notification.notify` does not raise (`plyerOk`), return `True`; every other
path (no backend, or the call raised and was swallowed) falls back to a UI
message and returns `False`. -/
def notify_os (hasPlyer : Bool) (plyerOk : Bool) : Bool :=
  if hasPlyer && plyerOk then true else false

/-- The per-task body of the first loop of `check_due_tasks`: skip the task if
its due text does not parse or it is completed, otherwise decide the
`notify_flag` under its recurrence rule and emit the `upcoming` tuple. -/
def due_notification (now window_end : Nat) (t : Task) :
    Option NotificationEvent :=
  match parse_iso_or_flex t.due_iso with
  | none => none
  | some due_dt =>
    if t.completed then none
    else
      let notify_flag :=
        if t.recurrence = "once" then
          decide (now ≤ due_dt ∧ due_dt ≤ window_end) &&
            decide (t.last_notified_date = none)
        else if t.recurrence = "daily" then
          let scheduled_today := (now / 86400) * 86400 + due_dt % 86400
          decide (now ≤ scheduled_today ∧ scheduled_today ≤ window_end) &&
            decide (¬ t.last_notified_date = some (now / 86400))
        else false
      if notify_flag then
        some { id := t.id, title := t.title, description := t.description,
               due_dt := due_dt, folder_path := t.folder_path,
               priority := t.priority }
      else none

/-- `check_due_tasks(window_minutes)` over store `s` at clock instant `now`:
compute `window_end`, read the tasks priority-first, collect `upcoming`, then
for each upcoming task call `notify_os` and persist today's date as its
`last_notified_date`.  Returns the `upcoming` list, the updated store, and
the list of `notify_os` results (the source discards the latter two into the
database and the UI). -/
def check_due_tasks (hasPlyer : Bool) (plyerOk : NotificationEvent → Bool)
    (window_minutes now : Nat) (s : List Task) :
    List NotificationEvent × List Task × List Bool :=
  let window_end := now + window_minutes * 60
  let tasks := get_tasks false s
  let upcoming := tasks.filterMap (due_notification now window_end)
  let today := now / 86400
  let fin := upcoming.foldl
    (fun acc e =>
      (set_task_notified_date e.id today acc.1,
       acc.2 ++ [notify_os hasPlyer (plyerOk e)]))
    (s, ([] : List Bool))
  (upcoming, fin.1, fin.2)

/-- The `upcoming` list assembled by `check_due_tasks`: the store read in
priority-first order, filtered through the per-task notification test. -/
def due_events (w now : Nat) (s : List Task) : List NotificationEvent :=
  (get_tasks false s).filterMap (due_notification now (now + w * 60))

/-- A concrete `once` task due at 10:00 of day 0. -/
def onceTaskEx : Task :=
  ⟨1, "A", none, ⟨36000, true⟩, "once", none, 10, 0, none, false⟩

/-- A one-row store holding `onceTaskEx`. -/
def onceStoreEx : List Task := [onceTaskEx]

/-- A concrete `daily` task whose stored due is day 0 at 18:00 and whose
marker records a firing on day 0. -/
def dailyTaskEx : Task :=
  ⟨2, "B", none, ⟨64800, true⟩, "daily", none, 5, 0, some 0, false⟩

/-- A one-row store holding `dailyTaskEx`. -/
def dailyStoreEx : List Task := [dailyTaskEx]

/-- A task whose stored due text fails every parse attempt. -/
def badDueTaskEx : Task :=
  ⟨3, "C", none, ⟨36000, false⟩, "once", none, 1, 0, none, false⟩

/-- A store mixing a parsable and an unparsable task. -/
def mixedStoreEx : List Task := [onceTaskEx, badDueTaskEx]

/-- A completed task that would otherwise be due in the window. -/
def completedTaskEx : Task :=
  ⟨4, "D", none, ⟨36000, true⟩, "once", none, 10, 0, none, true⟩

/-- A two-row store used to exercise the edit frame property. -/
def mixedStoreEx2 : List Task := [onceTaskEx, dailyTaskEx]

/-- Three tasks holding ranks 30, 10, 20 with equal priority and due. -/
def rankTaskA : Task := ⟨10, "r30", none, ⟨0, true⟩, "once", none, 5, 30, none, false⟩

def rankTaskB : Task := ⟨11, "r10", none, ⟨0, true⟩, "once", none, 5, 10, none, false⟩

def rankTaskC : Task := ⟨12, "r20", none, ⟨0, true⟩, "once", none, 5, 20, none, false⟩

def rankStoreEx : List Task := [rankTaskA, rankTaskB, rankTaskC]

/-- Selects the key class (rank 10, priority 5, due 0). -/
def keyClassEx (t : Task) : Bool :=
  t.sort_index == 10 && t.priority == 5 && t.due_iso.value == 0

/-- The per-row effect of a successful swap of the ranks of `a` and `b`. -/
def swapRanks (a b : Task) (t : Task) : Task :=
  if t.id = a.id then { t with sort_index := b.sort_index }
  else if t.id = b.id then { t with sort_index := a.sort_index }
  else t

/-- Two tasks with ranks 10 and 30 plus a bystander, primary-key ids. -/
def swapTaskA : Task :=
  ⟨20, "x", none, ⟨100, true⟩, "once", none, 1, 10, none, false⟩

def swapTaskB : Task :=
  ⟨21, "y", none, ⟨200, true⟩, "once", none, 5, 30, none, false⟩

def swapTaskC : Task :=
  ⟨22, "z", none, ⟨300, true⟩, "daily", none, 10, 20, some 3, true⟩

def swapStoreEx : List Task := [swapTaskA, swapTaskB, swapTaskC]

/-- A sublist of `d` that is a permutation of `d.filter p` is `d.filter p`. -/
theorem eq_filter_of_sublist_of_perm {α : Type} [DecidableEq α] {p : α → Bool} :
    ∀ {c d : List α}, List.Sublist c d → List.Perm c (d.filter p) →
      c = d.filter p := by
  intro c d hs
  induction hs with
  | slnil =>
    intro _
    rfl
  | @cons c d a hs ih =>
    intro hperm
    by_cases hpa : p a = true
    · exfalso
      have hfa : (a :: d).filter p = a :: d.filter p := by
        simp [List.filter_cons, hpa]
      rw [hfa] at hperm
      have hcount : c.count a = (a :: d.filter p).count a := hperm.count_eq a
      have h1 : (a :: d.filter p).count a = (d.filter p).count a + 1 := by
        simp [List.count_cons]
      have h2 : (d.filter p).count a = d.count a := List.count_filter hpa
      have h3 : c.count a ≤ d.count a := hs.count_le a
      omega
    · have hfa : (a :: d).filter p = d.filter p := by
        simp [List.filter_cons, hpa]
      rw [hfa] at hperm
      rw [hfa]
      exact ih hperm
  | @cons₂ c d a hs ih =>
    intro hperm
    have hpa : p a = true := by
      have ha : a ∈ (a :: d).filter p := hperm.mem_iff.mp (List.mem_cons_self a c)
      exact (List.mem_filter.mp ha).2
    have hfa : (a :: d).filter p = a :: d.filter p := by
      simp [List.filter_cons, hpa]
    rw [hfa] at hperm
    rw [hfa, ih hperm.cons_inv]

/-- In a store with primary-key ids, a row is determined by its id. -/
theorem task_eq_of_id_eq {s : List Task} (hnd : (s.map Task.id).Nodup)
    {a b : Task} (ha : a ∈ s) (hb : b ∈ s) (h : a.id = b.id) : a = b :=
  List.inj_on_of_nodup_map hnd ha hb h

/-- Counting rows by id in a primary-key store isolates the one row. -/
theorem countP_id_nodup {s : List Task} (hnd : (s.map Task.id).Nodup)
    {t : Task} (ht : t ∈ s) (p : Task → Bool) :
    s.countP (fun u => u.id == t.id && p u) = if p t then 1 else 0 := by
  induction s with
  | nil => cases ht
  | cons u rest ih =>
    rw [List.map_cons, List.nodup_cons] at hnd
    obtain ⟨hu, hnd2⟩ := hnd
    rcases List.mem_cons.mp ht with rfl | ht2
    · rw [List.countP_cons]
      have hrest : rest.countP (fun v => v.id == t.id && p v) = 0 := by
        rw [List.countP_eq_zero]
        intro v hv
        have hvid : v.id ≠ t.id := by
          intro hEq
          exact hu (hEq ▸ List.mem_map_of_mem Task.id hv)
        simp [hvid]
      rw [hrest]
      simp
    · have hut : u.id ≠ t.id := by
        intro hEq
        exact hu (hEq ▸ List.mem_map_of_mem Task.id ht2)
      rw [List.countP_cons, ih hnd2 ht2]
      simp [hut]

theorem due_notification_unparsed {now we : Nat} {t : Task}
    (hp : t.due_iso.parses = false) : due_notification now we t = none := by
  unfold due_notification parse_iso_or_flex
  rw [hp]
  simp

theorem due_notification_completed {now we : Nat} {t : Task}
    (hc : t.completed = true) : due_notification now we t = none := by
  unfold due_notification
  cases hp : parse_iso_or_flex t.due_iso
  · simp
  · simp [hc]

/-- Closed form of the notification test for a `once` task. -/
theorem due_notification_once {now we : Nat} {t : Task}
    (hp : t.due_iso.parses = true) (hc : t.completed = false)
    (hr : t.recurrence = "once") :
    due_notification now we t
      = if (now ≤ t.due_iso.value ∧ t.due_iso.value ≤ we)
            ∧ t.last_notified_date = none
        then some ⟨t.id, t.title, t.description, t.due_iso.value,
                   t.folder_path, t.priority⟩
        else none := by
  unfold due_notification parse_iso_or_flex
  rw [hp, hc, hr]
  by_cases h1 : now ≤ t.due_iso.value ∧ t.due_iso.value ≤ we <;>
    by_cases h2 : t.last_notified_date = none <;>
      simp [h1, h2]

/-- Closed form of the notification test for a `daily` task. -/
theorem due_notification_daily {now we : Nat} {t : Task}
    (hp : t.due_iso.parses = true) (hc : t.completed = false)
    (hr : t.recurrence = "daily") :
    due_notification now we t
      = if (now ≤ (now / 86400) * 86400 + t.due_iso.value % 86400
              ∧ (now / 86400) * 86400 + t.due_iso.value % 86400 ≤ we)
            ∧ t.last_notified_date ≠ some (now / 86400)
        then some ⟨t.id, t.title, t.description, t.due_iso.value,
                   t.folder_path, t.priority⟩
        else none := by
  unfold due_notification parse_iso_or_flex
  rw [hp, hc, hr]
  by_cases h1 : now ≤ (now / 86400) * 86400 + t.due_iso.value % 86400
      ∧ (now / 86400) * 86400 + t.due_iso.value % 86400 ≤ we <;>
    by_cases h2 : t.last_notified_date = some (now / 86400) <;>
      simp [h1, h2]

/-- A task whose recurrence is neither `once` nor `daily` never fires. -/
theorem due_notification_other {now we : Nat} {t : Task}
    (h1 : ¬ t.recurrence = "once") (h2 : ¬ t.recurrence = "daily") :
    due_notification now we t = none := by
  unfold due_notification
  cases hp : parse_iso_or_flex t.due_iso
  · simp
  · cases hc : t.completed <;> simp [h1, h2, hc]

/-- A notification tuple carries the id of the task it was built from. -/
theorem due_notification_id {now we : Nat} {t : Task} {e : NotificationEvent}
    (h : due_notification now we t = some e) : e.id = t.id := by
  by_cases hp : t.due_iso.parses = true
  · by_cases hc : t.completed = true
    · rw [due_notification_completed hc] at h
      simp at h
    · have hc2 : t.completed = false := by simpa using hc
      by_cases hr1 : t.recurrence = "once"
      · rw [due_notification_once hp hc2 hr1] at h
        split at h
        · rw [Option.some_inj] at h
          subst h
          rfl
        · simp at h
      · by_cases hr2 : t.recurrence = "daily"
        · rw [due_notification_daily hp hc2 hr2] at h
          split at h
          · rw [Option.some_inj] at h
            subst h
            rfl
          · simp at h
        · rw [due_notification_other hr1 hr2] at h
          simp at h
  · have hp2 : t.due_iso.parses = false := by simpa using hp
    rw [due_notification_unparsed hp2] at h
    simp at h

/-- Counting events by id through the `filterMap` of the first loop. -/
theorem countP_filterMap_due (now we tid : Nat) :
    ∀ l : List Task,
      (l.filterMap (due_notification now we)).countP (fun e => e.id == tid)
        = l.countP
            (fun u => u.id == tid && (due_notification now we u).isSome) := by
  intro l
  induction l with
  | nil => rfl
  | cons t l ih =>
    rw [List.filterMap_cons]
    cases hdn : due_notification now we t with
    | none => simp [List.countP_cons, hdn, ih]
    | some e =>
      have hid : e.id = t.id := due_notification_id hdn
      simp [List.countP_cons, hdn, ih, hid]

/-- The marker-update/notify loop splits into its two independent effects. -/
theorem foldl_set_notify_split (hasPlyer : Bool)
    (plyerOk : NotificationEvent → Bool) (d : Nat) :
    ∀ (up : List NotificationEvent) (s : List Task) (rs : List Bool),
      up.foldl (fun acc e =>
          (set_task_notified_date e.id d acc.1,
           acc.2 ++ [notify_os hasPlyer (plyerOk e)])) (s, rs)
        = (up.foldl (fun st e => set_task_notified_date e.id d st) s,
           rs ++ up.map (fun e => notify_os hasPlyer (plyerOk e))) := by
  intro up
  induction up with
  | nil =>
    intro s rs
    simp
  | cons e up ih =>
    intro s rs
    rw [List.foldl_cons, List.foldl_cons, ih]
    simp

/-- Folding the marker updates over the store marks exactly the rows whose id
fired. -/
theorem foldl_set_eq_map (d : Nat) :
    ∀ (up : List NotificationEvent) (s : List Task),
      up.foldl (fun st e => set_task_notified_date e.id d st) s
        = s.map (fun t =>
            if up.any (fun e => e.id == t.id) then
              { t with last_notified_date := some d } else t) := by
  intro up
  induction up with
  | nil =>
    intro s
    simp
  | cons e up ih =>
    intro s
    rw [List.foldl_cons, ih]
    unfold set_task_notified_date
    rw [List.map_map]
    refine List.map_congr_left fun t _ => ?_
    by_cases hte : t.id = e.id
    · have h1 : (e.id == t.id) = true := by simp [hte]
      simp [hte, h1]
    · have h1 : (e.id == t.id) = false := by
        simp only [beq_eq_false_iff_ne, ne_eq]
        exact fun hEq => hte hEq.symm
      simp [hte, h1]

/-- Closed form of `check_due_tasks`: the events, the updated store, and the
delivery results. -/
theorem check_due_tasks_eq (hasPlyer : Bool)
    (plyerOk : NotificationEvent → Bool) (w now : Nat) (s : List Task) :
    check_due_tasks hasPlyer plyerOk w now s
      = (due_events w now s,
         s.map (fun t =>
           if (due_events w now s).any (fun e => e.id == t.id) then
             { t with last_notified_date := some (now / 86400) } else t),
         (due_events w now s).map
           (fun e => notify_os hasPlyer (plyerOk e))) := by
  unfold check_due_tasks due_events
  simp only []
  rw [foldl_set_notify_split, foldl_set_eq_map]
  simp

/-- In a primary-key store, each member task contributes exactly one event
when its notification test fires, and none otherwise. -/
theorem count_due_events {s : List Task} (hnd : (s.map Task.id).Nodup)
    {t : Task} (ht : t ∈ s) (w now : Nat) :
    (due_events w now s).countP (fun e => e.id == t.id)
      = if (due_notification now (now + w * 60) t).isSome then 1 else 0 := by
  unfold due_events get_tasks
  simp only [Bool.false_eq_true, if_false]
  rw [countP_filterMap_due, (List.mergeSort_perm s priorityLE).countP_eq]
  exact countP_id_nodup hnd ht _

theorem check_due_tasks_fst (hasPlyer : Bool)
    (plyerOk : NotificationEvent → Bool) (w now : Nat) (s : List Task) :
    (check_due_tasks hasPlyer plyerOk w now s).1 = due_events w now s := by
  rw [check_due_tasks_eq]

theorem check_due_tasks_state (hasPlyer : Bool)
    (plyerOk : NotificationEvent → Bool) (w now : Nat) (s : List Task) :
    (check_due_tasks hasPlyer plyerOk w now s).2.1
      = s.map (fun t =>
          if (due_events w now s).any (fun e => e.id == t.id) then
            { t with last_notified_date := some (now / 86400) } else t) := by
  rw [check_due_tasks_eq]

theorem check_due_tasks_results (hasPlyer : Bool)
    (plyerOk : NotificationEvent → Bool) (w now : Nat) (s : List Task) :
    (check_due_tasks hasPlyer plyerOk w now s).2.2
      = (due_events w now s).map (fun e => notify_os hasPlyer (plyerOk e)) := by
  rw [check_due_tasks_eq]

/-- Marker updates change no id: the store keeps the same id column. -/
theorem ids_after_check (hasPlyer : Bool) (plyerOk : NotificationEvent → Bool)
    (w now : Nat) (s : List Task) :
    (check_due_tasks hasPlyer plyerOk w now s).2.1.map Task.id
      = s.map Task.id := by
  rw [check_due_tasks_state, List.map_map]
  refine List.map_congr_left fun t _ => ?_
  simp only [Function.comp_apply]
  split <;> rfl

/-- A member task whose test fires has its id among the emitted events. -/
theorem any_due_events_of_fire {s : List Task} (hnd : (s.map Task.id).Nodup)
    {t : Task} (ht : t ∈ s) {w now : Nat}
    (hsome : (due_notification now (now + w * 60) t).isSome = true) :
    (due_events w now s).any (fun e => e.id == t.id) = true := by
  have hcount := count_due_events hnd ht w now
  rw [hsome, if_pos rfl] at hcount
  rw [List.any_eq_true]
  have hpos : 0 < (due_events w now s).countP (fun e => e.id == t.id) := by
    omega
  exact List.countP_pos_iff.mp hpos

/-- A member task whose test does not fire has no event with its id. -/
theorem any_due_events_of_quiet {s : List Task} (hnd : (s.map Task.id).Nodup)
    {t : Task} (ht : t ∈ s) {w now : Nat}
    (hnone : (due_notification now (now + w * 60) t).isSome = false) :
    (due_events w now s).any (fun e => e.id == t.id) = false := by
  have hcount := count_due_events hnd ht w now
  rw [hnone] at hcount
  simp only [Bool.false_eq_true, if_false] at hcount
  rw [List.any_eq_false]
  intro e he
  have := List.countP_eq_zero.mp hcount e he
  simpa using this

/-- The updated store holds the marked row of every member task that fired. -/
theorem marked_mem_state (hasPlyer : Bool) (plyerOk : NotificationEvent → Bool)
    {w now : Nat} {s : List Task} {t : Task} (ht : t ∈ s)
    (hfire : (due_events w now s).any (fun e => e.id == t.id) = true) :
    { t with last_notified_date := some (now / 86400) }
      ∈ (check_due_tasks hasPlyer plyerOk w now s).2.1 := by
  rw [check_due_tasks_state]
  have hmem := List.mem_map_of_mem (fun u =>
    if (due_events w now s).any (fun e => e.id == u.id) then
      { u with last_notified_date := some (now / 86400) } else u) ht
  simpa [hfire] using hmem

/-- The updated store holds every member task that did not fire, unchanged. -/
theorem unchanged_mem_state (hasPlyer : Bool)
    (plyerOk : NotificationEvent → Bool)
    {w now : Nat} {s : List Task} {t : Task} (ht : t ∈ s)
    (hquiet : (due_events w now s).any (fun e => e.id == t.id) = false) :
    t ∈ (check_due_tasks hasPlyer plyerOk w now s).2.1 := by
  rw [check_due_tasks_state]
  have hmem := List.mem_map_of_mem (fun u =>
    if (due_events w now s).any (fun e => e.id == u.id) then
      { u with last_notified_date := some (now / 86400) } else u) ht
  simpa [hquiet] using hmem

/-- C1: for an incomplete `once` task with unset last-notified marker (and a
parsable due text), `check_due_tasks` at clock `now` with window `w` minutes
emits exactly one event for the task iff `now ≤ due ≤ now + w` minutes, in
which case it writes today's date into the task's marker, and an immediately
following second evaluation of the resulting store emits no event for it. -/
theorem C1_once_fires_at_most_once (hasPlyer hasPlyer2 : Bool)
    (plyerOk plyerOk2 : NotificationEvent → Bool) (w now : Nat)
    (s : List Task) (t : Task)
    (hnd : (s.map Task.id).Nodup) (ht : t ∈ s)
    (hc : t.completed = false) (hr : t.recurrence = "once")
    (hm : t.last_notified_date = none) (hp : t.due_iso.parses = true) :
    ((check_due_tasks hasPlyer plyerOk w now s).1.countP
        (fun e => e.id == t.id)
      = if now ≤ t.due_iso.value ∧ t.due_iso.value ≤ now + w * 60
        then 1 else 0)
    ∧ (now ≤ t.due_iso.value → t.due_iso.value ≤ now + w * 60 →
        { t with last_notified_date := some (now / 86400) }
            ∈ (check_due_tasks hasPlyer plyerOk w now s).2.1
        ∧ (check_due_tasks hasPlyer2 plyerOk2 w now
              (check_due_tasks hasPlyer plyerOk w now s).2.1).1.countP
            (fun e => e.id == t.id) = 0) := by
  have hdn : due_notification now (now + w * 60) t
      = if (now ≤ t.due_iso.value ∧ t.due_iso.value ≤ now + w * 60)
            ∧ t.last_notified_date = none
        then some ⟨t.id, t.title, t.description, t.due_iso.value,
                   t.folder_path, t.priority⟩ else none :=
    due_notification_once hp hc hr
  constructor
  · rw [check_due_tasks_fst, count_due_events hnd ht, hdn]
    by_cases hw : now ≤ t.due_iso.value ∧ t.due_iso.value ≤ now + w * 60 <;>
      simp [hw, hm]
  · intro h1 h2
    have hsome : (due_notification now (now + w * 60) t).isSome = true := by
      rw [hdn]
      simp [h1, h2, hm]
    have hfire := any_due_events_of_fire hnd ht hsome
    refine ⟨marked_mem_state hasPlyer plyerOk ht hfire, ?_⟩
    have ht2 : { t with last_notified_date := some (now / 86400) }
        ∈ (check_due_tasks hasPlyer plyerOk w now s).2.1 :=
      marked_mem_state hasPlyer plyerOk ht hfire
    have hnd2 :
        ((check_due_tasks hasPlyer plyerOk w now s).2.1.map Task.id).Nodup := by
      rw [ids_after_check]
      exact hnd
    rw [check_due_tasks_fst, count_due_events hnd2 ht2]
    have hdn2 : due_notification now (now + w * 60)
        { t with last_notified_date := some (now / 86400) } = none := by
      rw [due_notification_once
        (t := { t with last_notified_date := some (now / 86400) }) hp hc hr]
      simp
    rw [hdn2]
    simp

theorem C1_once_fires_at_most_once_witness :
    (([onceTaskEx].map Task.id).Nodup ∧ onceTaskEx ∈ onceStoreEx
      ∧ onceTaskEx.completed = false ∧ onceTaskEx.recurrence = "once"
      ∧ onceTaskEx.last_notified_date = none
      ∧ onceTaskEx.due_iso.parses = true
      ∧ 34200 ≤ onceTaskEx.due_iso.value
      ∧ onceTaskEx.due_iso.value ≤ 34200 + 60 * 60)
    ∧ ((check_due_tasks true (fun _ => true) 60 34200 onceStoreEx).1.countP
        (fun e => e.id == onceTaskEx.id)
      = if 34200 ≤ onceTaskEx.due_iso.value
            ∧ onceTaskEx.due_iso.value ≤ 34200 + 60 * 60 then 1 else 0)
    ∧ ({ onceTaskEx with last_notified_date := some (34200 / 86400) }
        ∈ (check_due_tasks true (fun _ => true) 60 34200 onceStoreEx).2.1)
    ∧ ((check_due_tasks false (fun _ => false) 60 34200
          (check_due_tasks true (fun _ => true) 60 34200 onceStoreEx).2.1).1.countP
        (fun e => e.id == onceTaskEx.id) = 0) := by
  have main := C1_once_fires_at_most_once true false (fun _ => true)
    (fun _ => false) 60 34200 onceStoreEx onceTaskEx
    (by decide) (by decide) (by decide) (by decide) (by decide) (by decide)
  exact ⟨⟨by decide, by decide, by decide, by decide, by decide, by decide,
          by decide, by decide⟩,
         main.1, (main.2 (by decide) (by decide)).1,
         (main.2 (by decide) (by decide)).2⟩

/-- C2: for an incomplete `daily` task (with parsable due text) the engine
re-anchors the stored time-of-day to today (`scheduledToday`), emits exactly
one event iff `now ≤ scheduledToday ≤ now + w` minutes and the marker is not
already today's date; on firing the marker becomes today, any re-evaluation
the same calendar day emits nothing for it, and an evaluation the next
calendar day is governed by the window test alone (the marker re-arms). -/
theorem C2_daily_once_per_day (hasPlyer hasPlyer2 hasPlyer3 : Bool)
    (plyerOk plyerOk2 plyerOk3 : NotificationEvent → Bool)
    (w w2 w3 now : Nat) (s : List Task) (t : Task)
    (hnd : (s.map Task.id).Nodup) (ht : t ∈ s)
    (hc : t.completed = false) (hr : t.recurrence = "daily")
    (hp : t.due_iso.parses = true) :
    ((check_due_tasks hasPlyer plyerOk w now s).1.countP
        (fun e => e.id == t.id)
      = if (now ≤ (now / 86400) * 86400 + t.due_iso.value % 86400
              ∧ (now / 86400) * 86400 + t.due_iso.value % 86400 ≤ now + w * 60)
            ∧ t.last_notified_date ≠ some (now / 86400)
        then 1 else 0)
    ∧ ((now ≤ (now / 86400) * 86400 + t.due_iso.value % 86400
          ∧ (now / 86400) * 86400 + t.due_iso.value % 86400 ≤ now + w * 60) →
       t.last_notified_date ≠ some (now / 86400) →
        { t with last_notified_date := some (now / 86400) }
            ∈ (check_due_tasks hasPlyer plyerOk w now s).2.1
        ∧ (∀ now2, now2 / 86400 = now / 86400 →
            (check_due_tasks hasPlyer2 plyerOk2 w2 now2
                (check_due_tasks hasPlyer plyerOk w now s).2.1).1.countP
              (fun e => e.id == t.id) = 0)
        ∧ (∀ now3, now3 / 86400 = now / 86400 + 1 →
            (check_due_tasks hasPlyer3 plyerOk3 w3 now3
                (check_due_tasks hasPlyer plyerOk w now s).2.1).1.countP
              (fun e => e.id == t.id)
              = if now3 ≤ (now3 / 86400) * 86400 + t.due_iso.value % 86400
                    ∧ (now3 / 86400) * 86400 + t.due_iso.value % 86400
                        ≤ now3 + w3 * 60
                then 1 else 0)) := by
  have hdn := @due_notification_daily now (now + w * 60) t hp hc hr
  constructor
  · rw [check_due_tasks_fst, count_due_events hnd ht, hdn]
    by_cases hw : (now ≤ (now / 86400) * 86400 + t.due_iso.value % 86400
        ∧ (now / 86400) * 86400 + t.due_iso.value % 86400 ≤ now + w * 60)
        ∧ t.last_notified_date ≠ some (now / 86400)
    · rw [if_pos hw, if_pos hw]
      simp
    · rw [if_neg hw, if_neg hw]
      simp
  · intro hw hm
    have hsome : (due_notification now (now + w * 60) t).isSome = true := by
      rw [hdn, if_pos ⟨hw, hm⟩]
      rfl
    have hfire := any_due_events_of_fire hnd ht hsome
    have ht2 : { t with last_notified_date := some (now / 86400) }
        ∈ (check_due_tasks hasPlyer plyerOk w now s).2.1 :=
      marked_mem_state hasPlyer plyerOk ht hfire
    have hnd2 :
        ((check_due_tasks hasPlyer plyerOk w now s).2.1.map Task.id).Nodup := by
      rw [ids_after_check]
      exact hnd
    refine ⟨ht2, ?_, ?_⟩
    · intro now2 hday
      rw [check_due_tasks_fst, count_due_events hnd2 ht2]
      have hdn2 : due_notification now2 (now2 + w2 * 60)
          { t with last_notified_date := some (now / 86400) } = none := by
        rw [due_notification_daily
          (t := { t with last_notified_date := some (now / 86400) }) hp hc hr]
        rw [if_neg]
        intro hcond
        exact hcond.2 (by rw [hday])
      rw [hdn2]
      simp
    · intro now3 hday
      rw [check_due_tasks_fst, count_due_events hnd2 ht2]
      rw [due_notification_daily
        (t := { t with last_notified_date := some (now / 86400) }) hp hc hr]
      dsimp only
      have hne : ¬ (some (now / 86400) : Option Nat) = some (now3 / 86400) := by
        intro hEq
        rw [hday, Option.some_inj] at hEq
        omega
      by_cases hwin3 : now3 ≤ (now3 / 86400) * 86400 + t.due_iso.value % 86400
          ∧ (now3 / 86400) * 86400 + t.due_iso.value % 86400 ≤ now3 + w3 * 60
      · simp [hwin3, hne]
      · simp [hwin3]

theorem C2_daily_once_per_day_witness :
    ((dailyStoreEx.map Task.id).Nodup ∧ dailyTaskEx ∈ dailyStoreEx
      ∧ dailyTaskEx.completed = false ∧ dailyTaskEx.recurrence = "daily"
      ∧ dailyTaskEx.due_iso.parses = true
      ∧ (150300 ≤ (150300 / 86400) * 86400 + dailyTaskEx.due_iso.value % 86400
          ∧ (150300 / 86400) * 86400 + dailyTaskEx.due_iso.value % 86400
              ≤ 150300 + 30 * 60)
      ∧ dailyTaskEx.last_notified_date ≠ some (150300 / 86400)
      ∧ 151500 / 86400 = 150300 / 86400
      ∧ 236700 / 86400 = 150300 / 86400 + 1)
    ∧ ((check_due_tasks true (fun _ => true) 30 150300 dailyStoreEx).1.countP
        (fun e => e.id == dailyTaskEx.id)
      = if (150300 ≤ (150300 / 86400) * 86400
              + dailyTaskEx.due_iso.value % 86400
            ∧ (150300 / 86400) * 86400 + dailyTaskEx.due_iso.value % 86400
                ≤ 150300 + 30 * 60)
            ∧ dailyTaskEx.last_notified_date ≠ some (150300 / 86400)
        then 1 else 0)
    ∧ ({ dailyTaskEx with last_notified_date := some (150300 / 86400) }
        ∈ (check_due_tasks true (fun _ => true) 30 150300 dailyStoreEx).2.1)
    ∧ ((check_due_tasks true (fun _ => true) 30 151500
          (check_due_tasks true (fun _ => true) 30 150300
            dailyStoreEx).2.1).1.countP
        (fun e => e.id == dailyTaskEx.id) = 0)
    ∧ ((check_due_tasks true (fun _ => true) 30 236700
          (check_due_tasks true (fun _ => true) 30 150300
            dailyStoreEx).2.1).1.countP
        (fun e => e.id == dailyTaskEx.id)
      = if 236700 ≤ (236700 / 86400) * 86400
              + dailyTaskEx.due_iso.value % 86400
            ∧ (236700 / 86400) * 86400 + dailyTaskEx.due_iso.value % 86400
                ≤ 236700 + 30 * 60
        then 1 else 0) := by
  have main := C2_daily_once_per_day true true true (fun _ => true)
    (fun _ => true) (fun _ => true) 30 30 30 150300 dailyStoreEx dailyTaskEx
    (by decide) (by decide) (by decide) (by decide) (by decide)
  have fired := main.2 (by decide) (by decide)
  exact ⟨⟨by decide, by decide, by decide, by decide, by decide, by decide,
          by decide, by decide, by decide⟩,
         main.1, fired.1, fired.2.1 151500 (by decide),
         fired.2.2 236700 (by decide)⟩

/-- C6: a task whose persisted due text fails every parse attempt is silently
excluded from evaluation: no emitted event carries its id and its row is
unchanged in the updated store; the evaluation still returns its (possibly
empty) event list for the rest of the store. -/
theorem C6_unparsable_due_skipped (hasPlyer : Bool)
    (plyerOk : NotificationEvent → Bool) (w now : Nat) (s : List Task)
    (t : Task) (hnd : (s.map Task.id).Nodup) (ht : t ∈ s)
    (hp : t.due_iso.parses = false) :
    ((check_due_tasks hasPlyer plyerOk w now s).1.countP
        (fun e => e.id == t.id) = 0)
    ∧ t ∈ (check_due_tasks hasPlyer plyerOk w now s).2.1 := by
  have hdn : due_notification now (now + w * 60) t = none :=
    due_notification_unparsed hp
  have hq : (due_events w now s).any (fun e => e.id == t.id) = false :=
    any_due_events_of_quiet hnd ht (by rw [hdn]; rfl)
  constructor
  · rw [check_due_tasks_fst, count_due_events hnd ht, hdn]
    simp
  · exact unchanged_mem_state hasPlyer plyerOk ht hq

theorem C6_unparsable_due_skipped_witness :
    ((mixedStoreEx.map Task.id).Nodup ∧ badDueTaskEx ∈ mixedStoreEx
      ∧ badDueTaskEx.due_iso.parses = false)
    ∧ ((check_due_tasks true (fun _ => true) 60 34200 mixedStoreEx).1.countP
        (fun e => e.id == badDueTaskEx.id) = 0)
    ∧ badDueTaskEx
        ∈ (check_due_tasks true (fun _ => true) 60 34200 mixedStoreEx).2.1 := by
  have main := C6_unparsable_due_skipped true (fun _ => true) 60 34200
    mixedStoreEx badDueTaskEx (by decide) (by decide) (by decide)
  exact ⟨⟨by decide, by decide, by decide⟩, main.1, main.2⟩

/-- C7: the emitted events and the updated store are the same whatever the
notifier backend reports (delivery failure is swallowed and does not stop
evaluation); the notifier is invoked once per due task; and every member task
whose id fired has its marker set to today in the updated store, regardless
of delivery outcomes. -/
theorem C7_marker_set_regardless_of_delivery (hasPlyer hasPlyer2 : Bool)
    (plyerOk plyerOk2 : NotificationEvent → Bool) (w now : Nat)
    (s : List Task) :
    ((check_due_tasks hasPlyer plyerOk w now s).1
        = (check_due_tasks hasPlyer2 plyerOk2 w now s).1
      ∧ (check_due_tasks hasPlyer plyerOk w now s).2.1
        = (check_due_tasks hasPlyer2 plyerOk2 w now s).2.1)
    ∧ (check_due_tasks hasPlyer plyerOk w now s).2.2.length
        = (check_due_tasks hasPlyer plyerOk w now s).1.length
    ∧ (∀ t ∈ s, (due_events w now s).any (fun e => e.id == t.id) = true →
        { t with last_notified_date := some (now / 86400) }
          ∈ (check_due_tasks hasPlyer plyerOk w now s).2.1) := by
  refine ⟨⟨?_, ?_⟩, ?_, ?_⟩
  · rw [check_due_tasks_fst, check_due_tasks_fst]
  · rw [check_due_tasks_state, check_due_tasks_state]
  · rw [check_due_tasks_results, check_due_tasks_fst, List.length_map]
  · intro t ht hfire
    exact marked_mem_state hasPlyer plyerOk ht hfire

theorem C7_marker_set_regardless_of_delivery_witness :
    (onceTaskEx ∈ onceStoreEx
      ∧ (due_events 60 34200 onceStoreEx).any
          (fun e => e.id == onceTaskEx.id) = true)
    ∧ ((check_due_tasks true (fun _ => true) 60 34200 onceStoreEx).1
        = (check_due_tasks false (fun _ => false) 60 34200 onceStoreEx).1
      ∧ (check_due_tasks true (fun _ => true) 60 34200 onceStoreEx).2.1
        = (check_due_tasks false (fun _ => false) 60 34200 onceStoreEx).2.1)
    ∧ (check_due_tasks true (fun _ => true) 60 34200 onceStoreEx).2.2.length
        = (check_due_tasks true (fun _ => true) 60 34200 onceStoreEx).1.length
    ∧ { onceTaskEx with last_notified_date := some (34200 / 86400) }
        ∈ (check_due_tasks true (fun _ => true) 60 34200 onceStoreEx).2.1 := by
  have main := C7_marker_set_regardless_of_delivery true false
    (fun _ => true) (fun _ => false) 60 34200 onceStoreEx
  have hfire : (due_events 60 34200 onceStoreEx).any
      (fun e => e.id == onceTaskEx.id) = true :=
    any_due_events_of_fire (by decide) (by decide) (by decide)
  exact ⟨⟨by decide, hfire⟩, main.1, main.2.1,
         main.2.2 onceTaskEx (by decide) hfire⟩

/-- C8: a completed task never produces an event and its row (marker
included) is unchanged by evaluation, whatever its recurrence, due timestamp
or marker state. -/
theorem C8_completed_always_skipped (hasPlyer : Bool)
    (plyerOk : NotificationEvent → Bool) (w now : Nat) (s : List Task)
    (t : Task) (hnd : (s.map Task.id).Nodup) (ht : t ∈ s)
    (hcomp : t.completed = true) :
    ((check_due_tasks hasPlyer plyerOk w now s).1.countP
        (fun e => e.id == t.id) = 0)
    ∧ t ∈ (check_due_tasks hasPlyer plyerOk w now s).2.1 := by
  have hdn : due_notification now (now + w * 60) t = none :=
    due_notification_completed hcomp
  have hq : (due_events w now s).any (fun e => e.id == t.id) = false :=
    any_due_events_of_quiet hnd ht (by rw [hdn]; rfl)
  constructor
  · rw [check_due_tasks_fst, count_due_events hnd ht, hdn]
    simp
  · exact unchanged_mem_state hasPlyer plyerOk ht hq

theorem C8_completed_always_skipped_witness :
    (([completedTaskEx].map Task.id).Nodup
      ∧ completedTaskEx ∈ [completedTaskEx]
      ∧ completedTaskEx.completed = true)
    ∧ ((check_due_tasks true (fun _ => true) 60 34200 [completedTaskEx]).1.countP
        (fun e => e.id == completedTaskEx.id) = 0)
    ∧ completedTaskEx
        ∈ (check_due_tasks true (fun _ => true) 60 34200
            [completedTaskEx]).2.1 := by
  have main := C8_completed_always_skipped true (fun _ => true) 60 34200
    [completedTaskEx] completedTaskEx (by decide) (by decide) (by decide)
  exact ⟨⟨by decide, by decide, by decide⟩, main.1, main.2⟩

/-- C10: when a `daily` task fires, the emitted event carries the parsed
stored due timestamp — original calendar date included — rather than the
re-anchored `scheduledToday` used for the window test, while the marker
written into the store is today's date. -/
theorem C10_daily_event_carries_stored_due (hasPlyer : Bool)
    (plyerOk : NotificationEvent → Bool) (w now : Nat) (s : List Task)
    (t : Task) (ht : t ∈ s) (hc : t.completed = false)
    (hr : t.recurrence = "daily") (hp : t.due_iso.parses = true)
    (hw : now ≤ (now / 86400) * 86400 + t.due_iso.value % 86400
          ∧ (now / 86400) * 86400 + t.due_iso.value % 86400 ≤ now + w * 60)
    (hm : t.last_notified_date ≠ some (now / 86400)) :
    (⟨t.id, t.title, t.description, t.due_iso.value, t.folder_path,
        t.priority⟩ : NotificationEvent)
        ∈ (check_due_tasks hasPlyer plyerOk w now s).1
    ∧ { t with last_notified_date := some (now / 86400) }
        ∈ (check_due_tasks hasPlyer plyerOk w now s).2.1 := by
  have hdn : due_notification now (now + w * 60) t
      = some ⟨t.id, t.title, t.description, t.due_iso.value, t.folder_path,
              t.priority⟩ := by
    rw [due_notification_daily hp hc hr, if_pos ⟨hw, hm⟩]
  have hmem : (⟨t.id, t.title, t.description, t.due_iso.value, t.folder_path,
      t.priority⟩ : NotificationEvent) ∈ due_events w now s := by
    unfold due_events get_tasks
    simp only [Bool.false_eq_true, if_false]
    exact List.mem_filterMap.mpr ⟨t, List.mem_mergeSort.mpr ht, hdn⟩
  have hfire : (due_events w now s).any (fun e => e.id == t.id) = true := by
    rw [List.any_eq_true]
    exact ⟨_, hmem, by simp⟩
  constructor
  · rw [check_due_tasks_fst]
    exact hmem
  · exact marked_mem_state hasPlyer plyerOk ht hfire

theorem C10_daily_event_carries_stored_due_witness :
    (dailyTaskEx ∈ dailyStoreEx ∧ dailyTaskEx.completed = false
      ∧ dailyTaskEx.recurrence = "daily" ∧ dailyTaskEx.due_iso.parses = true
      ∧ (150300 ≤ (150300 / 86400) * 86400 + dailyTaskEx.due_iso.value % 86400
          ∧ (150300 / 86400) * 86400 + dailyTaskEx.due_iso.value % 86400
              ≤ 150300 + 30 * 60)
      ∧ dailyTaskEx.last_notified_date ≠ some (150300 / 86400)
      ∧ dailyTaskEx.due_iso.value / 86400 ≠ 150300 / 86400)
    ∧ (⟨dailyTaskEx.id, dailyTaskEx.title, dailyTaskEx.description,
          dailyTaskEx.due_iso.value, dailyTaskEx.folder_path,
          dailyTaskEx.priority⟩ : NotificationEvent)
        ∈ (check_due_tasks true (fun _ => true) 30 150300 dailyStoreEx).1
    ∧ { dailyTaskEx with last_notified_date := some (150300 / 86400) }
        ∈ (check_due_tasks true (fun _ => true) 30 150300 dailyStoreEx).2.1 := by
  have main := C10_daily_event_carries_stored_due true (fun _ => true)
    30 150300 dailyStoreEx dailyTaskEx (by decide) (by decide) (by decide)
    (by decide) (by decide) (by decide)
  exact ⟨⟨by decide, by decide, by decide, by decide, by decide, by decide,
          by decide⟩, main.1, main.2⟩

/-- C9: an edit through `update_task` changes no task's sort rank,
last-notified marker or completed flag (editing the due timestamp does not
reset the marker), and leaves every task with a different id entirely
unmodified. -/
theorem C9_update_preserves_rank_and_marker (task_id : Nat) (title : String)
    (descr : Option String) (due_dt : Nat) (rec : String)
    (folder : Option String) (prio : Int) (s : List Task) :
    ((update_task task_id title descr due_dt rec folder prio s).map
        (fun t => (t.id, t.sort_index, t.last_notified_date, t.completed))
      = s.map (fun t => (t.id, t.sort_index, t.last_notified_date,
          t.completed)))
    ∧ (∀ t ∈ s, t.id ≠ task_id →
        t ∈ update_task task_id title descr due_dt rec folder prio s) := by
  constructor
  · unfold update_task
    rw [List.map_map]
    refine List.map_congr_left fun t _ => ?_
    by_cases hid : t.id = task_id <;> simp [hid]
  · intro t ht hne
    unfold update_task
    have hmem := List.mem_map_of_mem (fun u =>
      if u.id = task_id then
        { u with title := title, description := descr,
                 due_iso := ⟨due_dt, true⟩, recurrence := rec,
                 folder_path := folder, priority := prio }
      else u) ht
    simpa [hne] using hmem

theorem C9_update_preserves_rank_and_marker_witness :
    (dailyTaskEx ∈ mixedStoreEx2 ∧ dailyTaskEx.id ≠ 1)
    ∧ ((update_task 1 "newT" (some "newD") 40000 "daily" (some "/p") 5
          mixedStoreEx2).map
        (fun t => (t.id, t.sort_index, t.last_notified_date, t.completed))
      = mixedStoreEx2.map
        (fun t => (t.id, t.sort_index, t.last_notified_date, t.completed)))
    ∧ dailyTaskEx
        ∈ update_task 1 "newT" (some "newD") 40000 "daily" (some "/p") 5
            mixedStoreEx2 := by
  have main := C9_update_preserves_rank_and_marker 1 "newT" (some "newD")
    40000 "daily" (some "/p") 5 mixedStoreEx2
  exact ⟨⟨by decide, by decide⟩, main.1,
         main.2 dailyTaskEx (by decide) (by decide)⟩

theorem manualLE_trans :
    ∀ (a b c : Task), manualLE a b → manualLE b c → manualLE a c := by
  intro a b c hab hbc
  simp only [manualLE, decide_eq_true_eq] at hab hbc ⊢
  omega

theorem manualLE_total : ∀ (a b : Task), manualLE a b || manualLE b a := by
  intro a b
  simp only [manualLE, Bool.or_eq_true, decide_eq_true_eq]
  omega

theorem priorityLE_trans :
    ∀ (a b c : Task), priorityLE a b → priorityLE b c → priorityLE a c := by
  intro a b c hab hbc
  simp only [priorityLE, decide_eq_true_eq] at hab hbc ⊢
  omega

theorem priorityLE_total :
    ∀ (a b : Task), priorityLE a b || priorityLE b a := by
  intro a b
  simp only [priorityLE, Bool.or_eq_true, decide_eq_true_eq]
  omega

/-- C3: `get_tasks` under the manual strategy returns a permutation of the
store sorted by (rank asc, priority desc, due asc); under the priority-first
strategy, by (priority desc, due asc), ignoring rank; both as deterministic
stable sorts: any class of key-equal tasks keeps its input (creation) order. -/
theorem C3_sorted_views (s : List Task) :
    (List.Perm (get_tasks true s) s
      ∧ (get_tasks true s).Pairwise (fun a b =>
          a.sort_index < b.sort_index
          ∨ (a.sort_index = b.sort_index
              ∧ (b.priority < a.priority
                  ∨ (a.priority = b.priority
                      ∧ a.due_iso.value ≤ b.due_iso.value)))))
    ∧ (List.Perm (get_tasks false s) s
      ∧ (get_tasks false s).Pairwise (fun a b =>
          b.priority < a.priority
          ∨ (a.priority = b.priority ∧ a.due_iso.value ≤ b.due_iso.value)))
    ∧ (∀ p : Task → Bool,
        (∀ a b : Task, p a = true → p b = true →
          a.sort_index = b.sort_index ∧ a.priority = b.priority
            ∧ a.due_iso.value = b.due_iso.value) →
        (get_tasks true s).filter p = s.filter p)
    ∧ (∀ p : Task → Bool,
        (∀ a b : Task, p a = true → p b = true →
          a.priority = b.priority ∧ a.due_iso.value = b.due_iso.value) →
        (get_tasks false s).filter p = s.filter p) := by
  have hgt : get_tasks true s = s.mergeSort manualLE := by
    unfold get_tasks
    rfl
  have hgf : get_tasks false s = s.mergeSort priorityLE := by
    unfold get_tasks
    rfl
  refine ⟨⟨?_, ?_⟩, ⟨?_, ?_⟩, ?_, ?_⟩
  · rw [hgt]
    exact List.mergeSort_perm s manualLE
  · rw [hgt]
    refine (List.sorted_mergeSort manualLE_trans manualLE_total s).imp ?_
    intro a b hab
    simpa only [manualLE, decide_eq_true_eq] using hab
  · rw [hgf]
    exact List.mergeSort_perm s priorityLE
  · rw [hgf]
    refine (List.sorted_mergeSort priorityLE_trans priorityLE_total s).imp ?_
    intro a b hab
    simpa only [priorityLE, decide_eq_true_eq] using hab
  · intro p hp
    rw [hgt]
    have hpair : (s.filter p).Pairwise (fun a b => manualLE a b = true) := by
      refine List.pairwise_of_forall_mem_list ?_
      intro a ha b hb
      obtain ⟨ha1, ha2, ha3⟩ :=
        hp a b (List.mem_filter.mp ha).2 (List.mem_filter.mp hb).2
      simp only [manualLE, decide_eq_true_eq]
      omega
    have hsub := List.sublist_mergeSort manualLE_trans manualLE_total hpair
      (List.filter_sublist s)
    have hperm : List.Perm (s.filter p) ((s.mergeSort manualLE).filter p) :=
      ((List.mergeSort_perm s manualLE).filter p).symm
    exact (eq_filter_of_sublist_of_perm hsub hperm).symm
  · intro p hp
    rw [hgf]
    have hpair : (s.filter p).Pairwise (fun a b => priorityLE a b = true) := by
      refine List.pairwise_of_forall_mem_list ?_
      intro a ha b hb
      obtain ⟨ha1, ha2⟩ :=
        hp a b (List.mem_filter.mp ha).2 (List.mem_filter.mp hb).2
      simp only [priorityLE, decide_eq_true_eq]
      omega
    have hsub := List.sublist_mergeSort priorityLE_trans priorityLE_total hpair
      (List.filter_sublist s)
    have hperm : List.Perm (s.filter p) ((s.mergeSort priorityLE).filter p) :=
      ((List.mergeSort_perm s priorityLE).filter p).symm
    exact (eq_filter_of_sublist_of_perm hsub hperm).symm

theorem C3_sorted_views_witness :
    List.Perm (get_tasks true rankStoreEx) rankStoreEx
    ∧ (get_tasks true rankStoreEx).Pairwise (fun a b =>
        a.sort_index < b.sort_index
        ∨ (a.sort_index = b.sort_index
            ∧ (b.priority < a.priority
                ∨ (a.priority = b.priority
                    ∧ a.due_iso.value ≤ b.due_iso.value))))
    ∧ List.Perm (get_tasks false rankStoreEx) rankStoreEx
    ∧ (get_tasks true rankStoreEx).filter keyClassEx
        = rankStoreEx.filter keyClassEx
    ∧ (get_tasks false rankStoreEx).filter (fun t => t.priority == 5
          && t.due_iso.value == 0)
        = rankStoreEx.filter (fun t => t.priority == 5
          && t.due_iso.value == 0) := by
  have main := C3_sorted_views rankStoreEx
  have hkey : ∀ a b : Task, keyClassEx a = true → keyClassEx b = true →
      a.sort_index = b.sort_index ∧ a.priority = b.priority
        ∧ a.due_iso.value = b.due_iso.value := by
    intro a b ha hb
    simp only [keyClassEx, Bool.and_eq_true, beq_iff_eq] at ha hb
    exact ⟨ha.1.1.trans hb.1.1.symm, ha.1.2.trans hb.1.2.symm,
           ha.2.trans hb.2.symm⟩
  have hkey2 : ∀ a b : Task,
      (fun t : Task => t.priority == 5 && t.due_iso.value == 0) a = true →
      (fun t : Task => t.priority == 5 && t.due_iso.value == 0) b = true →
      a.priority = b.priority ∧ a.due_iso.value = b.due_iso.value := by
    intro a b ha hb
    simp only [Bool.and_eq_true, beq_iff_eq] at ha hb
    exact ⟨ha.1.trans hb.1.symm, ha.2.trans hb.2.symm⟩
  exact ⟨main.1.1, main.1.2, main.2.1.1, main.2.2.1 keyClassEx hkey,
         main.2.2.2 _ hkey2⟩

theorem swapRanks_id (a b t : Task) : (swapRanks a b t).id = t.id := by
  unfold swapRanks
  split
  · rfl
  · split <;> rfl

/-- With primary-key ids, selecting the rows of two distinct existing ids
returns exactly those two rows (in one of the two orders). -/
theorem filter_two_ids {s : List Task} (hnd : (s.map Task.id).Nodup)
    {a b : Task} (ha : a ∈ s) (hb : b ∈ s) (hab : a.id ≠ b.id) :
    s.filter (fun t => t.id == a.id || t.id == b.id) = [a, b]
    ∨ s.filter (fun t => t.id == a.id || t.id == b.id) = [b, a] := by
  have hmemq : ∀ t ∈ s.filter (fun t => t.id == a.id || t.id == b.id),
      t = a ∨ t = b := by
    intro t htf
    obtain ⟨hts, htq⟩ := List.mem_filter.mp htf
    simp only [Bool.or_eq_true, beq_iff_eq] at htq
    rcases htq with h | h
    · exact Or.inl (task_eq_of_id_eq hnd hts ha h)
    · exact Or.inr (task_eq_of_id_eq hnd hts hb h)
  have hsnd : s.Nodup := List.Nodup.of_map _ hnd
  have hnodup : (s.filter (fun t => t.id == a.id || t.id == b.id)).Nodup :=
    hsnd.filter _
  have haf : a ∈ s.filter (fun t => t.id == a.id || t.id == b.id) :=
    List.mem_filter.mpr ⟨ha, by simp⟩
  have hbf : b ∈ s.filter (fun t => t.id == a.id || t.id == b.id) :=
    List.mem_filter.mpr ⟨hb, by simp⟩
  have hab2 : a ≠ b := fun h => hab (h ▸ rfl)
  have h1 : List.Subperm [a, b]
      (s.filter (fun t => t.id == a.id || t.id == b.id)) := by
    refine List.Nodup.subperm ?_ ?_
    · simp [hab2]
    · intro x hx
      rcases List.mem_cons.mp hx with rfl | hx2
      · exact haf
      · rw [List.mem_singleton.mp hx2]
        exact hbf
  have h2 : List.Subperm (s.filter (fun t => t.id == a.id || t.id == b.id))
      [a, b] := by
    refine List.Nodup.subperm hnodup ?_
    intro x hx
    rcases hmemq x hx with rfl | rfl
    · exact List.mem_cons_self x [b]
    · simp
  have hlen : (s.filter (fun t => t.id == a.id || t.id == b.id)).length = 2 :=
    Nat.le_antisymm (by simpa using h2.length_le) (by simpa using h1.length_le)
  obtain ⟨x, y, hxy⟩ := List.length_eq_two.mp hlen
  have hx := hmemq x (by rw [hxy]; exact List.mem_cons_self x [y])
  have hy := hmemq y (by rw [hxy]; simp)
  have hxyne : x ≠ y := by
    rw [hxy, List.nodup_cons] at hnodup
    exact fun hEq => hnodup.1 (hEq ▸ List.mem_cons_self y [])
  rcases hx with rfl | rfl <;> rcases hy with rfl | rfl
  · exact absurd rfl hxyne
  · exact Or.inl hxy
  · exact Or.inr hxy
  · exact absurd rfl hxyne

/-- A successful swap of two distinct existing ids is the row-wise rank
exchange and nothing more. -/
theorem swap_eq_map {s : List Task} (hnd : (s.map Task.id).Nodup)
    {a b : Task} (ha : a ∈ s) (hb : b ∈ s) (hab : a.id ≠ b.id) :
    swap_sort_index a.id b.id s = s.map (swapRanks a b) := by
  unfold swap_sort_index
  rcases filter_two_ids hnd ha hb hab with hf | hf <;> rw [hf] <;>
    unfold set_sort_index <;> dsimp only <;> rw [List.map_map] <;>
    refine List.map_congr_left fun t _ => ?_ <;>
    by_cases h1 : t.id = a.id <;> by_cases h2 : t.id = b.id
  · exact absurd (h1.symm.trans h2) hab
  · simp [swapRanks, h1, h2, hab, hab.symm]
  · simp [swapRanks, h1, h2, hab, hab.symm]
  · simp [swapRanks, h1, h2, hab, hab.symm]
  · exact absurd (h1.symm.trans h2) hab
  · simp [swapRanks, h1, h2, hab, hab.symm]
  · simp [swapRanks, h1, h2, hab, hab.symm]
  · simp [swapRanks, h1, h2, hab, hab.symm]

/-- C4: swapping two distinct existing ids exchanges exactly those two
tasks' rank values (no other field or row changes), preserves the multiset
of rank values over the store, and applying the same swap twice restores the
original store. -/
theorem C4_swap_exchanges_two_ranks {s : List Task} {a b : Task}
    (hnd : (s.map Task.id).Nodup) (ha : a ∈ s) (hb : b ∈ s)
    (hab : a.id ≠ b.id) :
    swap_sort_index a.id b.id s = s.map (swapRanks a b)
    ∧ List.Perm ((swap_sort_index a.id b.id s).map Task.sort_index)
        (s.map Task.sort_index)
    ∧ swap_sort_index a.id b.id (swap_sort_index a.id b.id s) = s := by
  have hswap := swap_eq_map hnd ha hb hab
  have hsnd : s.Nodup := List.Nodup.of_map _ hnd
  refine ⟨hswap, ?_, ?_⟩
  · rw [hswap, List.map_map]
    have hba : b ≠ a := fun h => hab (congrArg Task.id h).symm
    have hperm1 : List.Perm s (a :: s.erase a) := List.perm_cons_erase ha
    have hbe : b ∈ s.erase a := hsnd.mem_erase_iff.mpr ⟨hba, hb⟩
    have hperm2 : List.Perm (s.erase a) (b :: (s.erase a).erase b) :=
      List.perm_cons_erase hbe
    have hsp : List.Perm s (a :: b :: (s.erase a).erase b) :=
      hperm1.trans (hperm2.cons a)
    have hrest : ∀ t ∈ (s.erase a).erase b, swapRanks a b t = t := by
      intro t htr
      have h1 := (hsnd.erase a).mem_erase_iff.mp htr
      have h2 := hsnd.mem_erase_iff.mp h1.2
      have hta : ¬ t.id = a.id :=
        fun hEq => h2.1 (task_eq_of_id_eq hnd h2.2 ha hEq)
      have htb : ¬ t.id = b.id :=
        fun hEq => h1.1 (task_eq_of_id_eq hnd h2.2 hb hEq)
      simp [swapRanks, hta, htb]
    have e1 := hsp.map (fun t => (swapRanks a b t).sort_index)
    have e2 := hsp.map Task.sort_index
    refine e1.trans (List.Perm.trans ?_ e2.symm)
    simp only [List.map_cons]
    have hga : (swapRanks a b a).sort_index = b.sort_index := by
      simp [swapRanks]
    have hgb : (swapRanks a b b).sort_index = a.sort_index := by
      simp [swapRanks, hab.symm]
    rw [hga, hgb,
        List.map_congr_left (fun t ht =>
          congrArg Task.sort_index (hrest t ht))]
    exact List.Perm.swap _ _ _
  · have hids : (s.map (swapRanks a b)).map Task.id = s.map Task.id := by
      rw [List.map_map]
      exact List.map_congr_left fun t _ => swapRanks_id a b t
    have hnd2 : ((s.map (swapRanks a b)).map Task.id).Nodup := by
      rw [hids]
      exact hnd
    have ha2 : ({ a with sort_index := b.sort_index } : Task)
        ∈ s.map (swapRanks a b) := by
      refine List.mem_map.mpr ⟨a, ha, ?_⟩
      simp [swapRanks]
    have hb2 : ({ b with sort_index := a.sort_index } : Task)
        ∈ s.map (swapRanks a b) := by
      refine List.mem_map.mpr ⟨b, hb, ?_⟩
      simp [swapRanks, hab.symm]
    rw [hswap]
    have hswap2 := swap_eq_map hnd2 ha2 hb2 hab
    rw [show swap_sort_index a.id b.id (s.map (swapRanks a b))
          = (s.map (swapRanks a b)).map
              (swapRanks { a with sort_index := b.sort_index }
                { b with sort_index := a.sort_index }) from hswap2,
        List.map_map]
    have hpt : ∀ t ∈ s,
        (swapRanks { a with sort_index := b.sort_index }
            { b with sort_index := a.sort_index } ∘ swapRanks a b) t
          = id t := by
      intro t ht
      by_cases h1 : t.id = a.id
      · have hta : t = a := task_eq_of_id_eq hnd ht ha h1
        subst hta
        simp [swapRanks, hab, hab.symm]
      · by_cases h2 : t.id = b.id
        · have htb : t = b := task_eq_of_id_eq hnd ht hb h2
          subst htb
          simp [swapRanks, hab, hab.symm]
        · simp [swapRanks, h1, h2]
    rw [List.map_congr_left hpt, List.map_id]

theorem C4_swap_exchanges_two_ranks_witness :
    ((swapStoreEx.map Task.id).Nodup ∧ swapTaskA ∈ swapStoreEx
      ∧ swapTaskB ∈ swapStoreEx ∧ swapTaskA.id ≠ swapTaskB.id)
    ∧ swap_sort_index swapTaskA.id swapTaskB.id swapStoreEx
        = swapStoreEx.map (swapRanks swapTaskA swapTaskB)
    ∧ List.Perm ((swap_sort_index swapTaskA.id swapTaskB.id
          swapStoreEx).map Task.sort_index)
        (swapStoreEx.map Task.sort_index)
    ∧ swap_sort_index swapTaskA.id swapTaskB.id
        (swap_sort_index swapTaskA.id swapTaskB.id swapStoreEx)
        = swapStoreEx := by
  have main := C4_swap_exchanges_two_ranks (s := swapStoreEx)
    (a := swapTaskA) (b := swapTaskB)
    (by decide) (by decide) (by decide) (by decide)
  exact ⟨⟨by decide, by decide, by decide, by decide⟩,
         main.1, main.2.1, main.2.2⟩

/-- C5: a swap whose two arguments are the same id, or where either id does
not resolve to an existing task, is a no-op on the store (and, being a total
function, raises nothing). -/
theorem C5_swap_self_or_missing_noop (s : List Task) (i j : Nat)
    (hnd : (s.map Task.id).Nodup)
    (h : i = j ∨ i ∉ s.map Task.id ∨ j ∉ s.map Task.id) :
    swap_sort_index i j s = s := by
  rcases hf : s.filter (fun t => t.id == i || t.id == j)
    with _ | ⟨x, _ | ⟨y, ys⟩⟩
  · unfold swap_sort_index
    rw [hf]
  · unfold swap_sort_index
    rw [hf]
  · exfalso
    have hsnd : s.Nodup := List.Nodup.of_map _ hnd
    have hfn : (s.filter (fun t => t.id == i || t.id == j)).Nodup :=
      hsnd.filter _
    rw [hf, List.nodup_cons] at hfn
    have hxy : x ≠ y := fun hEq => hfn.1 (hEq ▸ List.mem_cons_self y ys)
    have hxm : x ∈ s.filter (fun t => t.id == i || t.id == j) := by
      rw [hf]
      exact List.mem_cons_self x (y :: ys)
    have hym : y ∈ s.filter (fun t => t.id == i || t.id == j) := by
      rw [hf]
      exact List.mem_cons_of_mem x (List.mem_cons_self y ys)
    obtain ⟨hxs, hxq⟩ := List.mem_filter.mp hxm
    obtain ⟨hys, hyq⟩ := List.mem_filter.mp hym
    simp only [Bool.or_eq_true, beq_iff_eq] at hxq hyq
    rcases h with rfl | hni | hnj
    · have hx : x.id = i := by rcases hxq with h | h <;> exact h
      have hy : y.id = i := by rcases hyq with h | h <;> exact h
      exact hxy (task_eq_of_id_eq hnd hxs hys (hx.trans hy.symm))
    · have hx : x.id = j := by
        rcases hxq with h | h
        · exact absurd (h ▸ List.mem_map_of_mem Task.id hxs) hni
        · exact h
      have hy : y.id = j := by
        rcases hyq with h | h
        · exact absurd (h ▸ List.mem_map_of_mem Task.id hys) hni
        · exact h
      exact hxy (task_eq_of_id_eq hnd hxs hys (hx.trans hy.symm))
    · have hx : x.id = i := by
        rcases hxq with h | h
        · exact h
        · exact absurd (h ▸ List.mem_map_of_mem Task.id hxs) hnj
      have hy : y.id = i := by
        rcases hyq with h | h
        · exact h
        · exact absurd (h ▸ List.mem_map_of_mem Task.id hys) hnj
      exact hxy (task_eq_of_id_eq hnd hxs hys (hx.trans hy.symm))

theorem C5_swap_self_or_missing_noop_witness :
    ((swapStoreEx.map Task.id).Nodup
      ∧ (20 = 20 ∨ (20 : Nat) ∉ swapStoreEx.map Task.id
          ∨ (20 : Nat) ∉ swapStoreEx.map Task.id)
      ∧ ((99 : Nat) = 21 ∨ (99 : Nat) ∉ swapStoreEx.map Task.id
          ∨ (21 : Nat) ∉ swapStoreEx.map Task.id))
    ∧ swap_sort_index 20 20 swapStoreEx = swapStoreEx
    ∧ swap_sort_index 99 21 swapStoreEx = swapStoreEx := by
  exact ⟨⟨by decide, Or.inl rfl, Or.inr (Or.inl (by decide))⟩,
         C5_swap_self_or_missing_noop swapStoreEx 20 20 (by decide)
           (Or.inl rfl),
         C5_swap_self_or_missing_noop swapStoreEx 99 21 (by decide)
           (Or.inr (Or.inl (by decide)))⟩

end Agenda
